import Mathlib

/-!
Shallow embedding of the `duners` Dune Analytics client
(`src/response.rs`, `src/error.rs`, `src/parameters.rs`, `src/client.rs`)
together with proofs about its specification.

Machine integers (`u32`, `u64`, `u16`) only occur as identifiers, counters
and durations that are never arithmetically combined, so they are modelled
as `Nat`.  Fallible Rust code (`Result`) is modelled with `Except`/`Option`.
-/

/- ---------------------------------------------------------------- -/
/- Execution status model: `src/response.rs`                         -/
/- ---------------------------------------------------------------- -/

/-- All possible states of query execution
(`enum ExecutionStatus`, src/response.rs lines 18-25). -/
inductive ExecutionStatus where
  | Complete
  | Executing
  | Pending
  | Cancelled
  | Failed
deriving DecidableEq, Repr

/-- Terminal classification of an execution status
(`ExecutionStatus::is_terminal`, src/response.rs lines 45-53),
clause by clause from the Rust `match`. -/
def ExecutionStatus.is_terminal : ExecutionStatus → Bool
  | ExecutionStatus.Complete => true
  | ExecutionStatus.Cancelled => true
  | ExecutionStatus.Failed => true
  | ExecutionStatus.Executing => false
  | ExecutionStatus.Pending => false

/-- Wire-string parsing of an execution status
(`impl FromStr for ExecutionStatus`, src/response.rs lines 30-39).
The Rust `match` on `input` with a catch-all arm
`other => Err(format!("Parse Error {other}"))` is rendered as an
if-chain on string equality. -/
def ExecutionStatus.fromStr (input : String) : Except String ExecutionStatus :=
  if input = "QUERY_STATE_COMPLETED" then Except.ok ExecutionStatus.Complete
  else if input = "QUERY_STATE_EXECUTING" then Except.ok ExecutionStatus.Executing
  else if input = "QUERY_STATE_PENDING" then Except.ok ExecutionStatus.Pending
  else if input = "QUERY_STATE_CANCELLED" then Except.ok ExecutionStatus.Cancelled
  else if input = "QUERY_STATE_FAILED" then Except.ok ExecutionStatus.Failed
  else Except.error ("Parse Error " ++ input)

/- ---------------------------------------------------------------- -/
/- Error model: `src/error.rs` and the reqwest error surface         -/
/- ---------------------------------------------------------------- -/

/-- Remote error envelope `{error: string}`
(`struct DuneError`, src/error.rs lines 5-8). -/
structure DuneError where
  error : String
deriving DecidableEq, Repr

/-- The client-facing error type
(`enum DuneRequestError`, src/error.rs lines 10-23).  Its four variants:
remote-reported message (`Dune`), errors bubbled up from `reqwest`
(`Request`), errors bubbled up from serde (de)serialization (`Serde`),
and errors bubbled up from polars (`Polars`). -/
inductive DuneRequestError where
  | Dune (msg : String)
  | Request (msg : String)
  | Serde (msg : String)
  | Polars (msg : String)
deriving DecidableEq, Repr

/-- The two kinds of `reqwest::Error` that can come out of
`Response::json` in `_parse_response`: a body-decode failure
(`is_decode()`) or a transport-level failure while reading the body. -/
inductive ReqErrorKind where
  | decode
  | transport
deriving DecidableEq, Repr

/-- Model of a `reqwest::Error` as observed by this crate: its kind plus
the underlying source description. -/
structure ReqwestError where
  kind : ReqErrorKind
  detail : String
deriving DecidableEq, Repr

/-- Display rendering of a `reqwest::Error` (`impl Display for reqwest::Error`):
a kind description followed by the source error.  Decode errors render as
"error decoding response body: ..."; this is the form the crate's own test
suite relies on (e.g. "builder error: relative URL without a base"). -/
def ReqwestError.display (e : ReqwestError) : String :=
  (match e.kind with
    | ReqErrorKind.decode => "error decoding response body"
    | ReqErrorKind.transport => "error sending request") ++ ": " ++ e.detail

/-- Conversion `impl From<reqwest::Error> for DuneRequestError`
(src/error.rs lines 31-35): `DuneRequestError::Request(value.to_string())`. -/
def DuneRequestError.fromReqwest (e : ReqwestError) : DuneRequestError :=
  DuneRequestError.Request e.display

/-- Conversion `impl From<DuneError> for DuneRequestError`
(src/error.rs lines 25-29): `DuneRequestError::Dune(value.error)`. -/
def DuneRequestError.fromDune (e : DuneError) : DuneRequestError :=
  DuneRequestError.Dune e.error

/- ---------------------------------------------------------------- -/
/- Response parsing: `DuneClient::_parse_response`, src/client.rs    -/
/- ---------------------------------------------------------------- -/

/-- An HTTP response as observed by `_parse_response`: its status line
success flag, the outcome of decoding the body as the target type `T`
(`resp.json::<T>()`), and the outcome of decoding the body as the remote
error envelope (`resp.json::<DuneError>()`). -/
structure HttpResponse (T : Type) where
  isSuccess : Bool
  jsonBody : Except ReqwestError T
  jsonDuneError : Except ReqwestError DuneError

/-- Model of `DuneClient::_parse_response` (src/client.rs lines 83-94):
on HTTP success, decode the body as `T`, mapping a `reqwest` failure via
`From<reqwest::Error>`; otherwise decode the error envelope (propagating
its decode failure with `?` through the same `From`), and surface the
envelope's message via `From<DuneError>`. -/
def parseResponse {T : Type} (resp : HttpResponse T) : Except DuneRequestError T :=
  if resp.isSuccess then
    resp.jsonBody.mapError DuneRequestError.fromReqwest
  else
    match resp.jsonDuneError.mapError DuneRequestError.fromReqwest with
    | Except.error e => Except.error e
    | Except.ok derr => Except.error (DuneRequestError.fromDune derr)

/- ---------------------------------------------------------------- -/
/- Theorems for C2 and C3                                            -/
/- ---------------------------------------------------------------- -/

/-- C2: for every execution status `s`, `is_terminal s` is true if and only
if `s` is Complete, Cancelled or Failed; in particular it is false for
Pending and Executing. -/
theorem is_terminal_iff :
    (∀ s : ExecutionStatus,
      s.is_terminal = true ↔
        (s = ExecutionStatus.Complete ∨ s = ExecutionStatus.Cancelled ∨
          s = ExecutionStatus.Failed)) ∧
    ExecutionStatus.is_terminal ExecutionStatus.Pending = false ∧
    ExecutionStatus.is_terminal ExecutionStatus.Executing = false := by
  refine ⟨fun s => ?_, rfl, rfl⟩
  cases s <;> simp [ExecutionStatus.is_terminal]

/-- C3: status parsing maps exactly the five wire values to the five
statuses, and every other input fails with the decode error
"Parse Error " followed by the offending literal. -/
theorem fromStr_spec :
    ExecutionStatus.fromStr "QUERY_STATE_COMPLETED" = Except.ok ExecutionStatus.Complete ∧
    ExecutionStatus.fromStr "QUERY_STATE_EXECUTING" = Except.ok ExecutionStatus.Executing ∧
    ExecutionStatus.fromStr "QUERY_STATE_PENDING" = Except.ok ExecutionStatus.Pending ∧
    ExecutionStatus.fromStr "QUERY_STATE_CANCELLED" = Except.ok ExecutionStatus.Cancelled ∧
    ExecutionStatus.fromStr "QUERY_STATE_FAILED" = Except.ok ExecutionStatus.Failed ∧
    ∀ s : String,
      s ∉ ["QUERY_STATE_COMPLETED", "QUERY_STATE_EXECUTING", "QUERY_STATE_PENDING",
           "QUERY_STATE_CANCELLED", "QUERY_STATE_FAILED"] →
      ExecutionStatus.fromStr s = Except.error ("Parse Error " ++ s) := by
  refine ⟨rfl, rfl, rfl, rfl, rfl, fun s hs => ?_⟩
  simp only [List.mem_cons, List.not_mem_nil, or_false] at hs
  push_neg at hs
  obtain ⟨h1, h2, h3, h4, h5⟩ := hs
  simp [ExecutionStatus.fromStr, h1, h2, h3, h4, h5]

/-- Witness for C3: the unrecognized literal "invalid" is rejected with a
decode error carrying the literal. -/
theorem fromStr_spec_witness :
    ("invalid" ∉ ["QUERY_STATE_COMPLETED", "QUERY_STATE_EXECUTING", "QUERY_STATE_PENDING",
        "QUERY_STATE_CANCELLED", "QUERY_STATE_FAILED"]) ∧
    ExecutionStatus.fromStr "invalid" = Except.error ("Parse Error " ++ "invalid") :=
  ⟨by decide, fromStr_spec.2.2.2.2.2 "invalid" (by decide)⟩

/-- C4: behaviour of `_parse_response` on every response.  On HTTP success
the body is decoded as the target type, and a schema mismatch surfaces the
`reqwest` body-decode error (recognizable by its "error decoding response
body" message) wrapped in the `Request` alternative, the crate's carrier
for `reqwest`-originated errors.  On HTTP non-success the error envelope
is decoded and its message surfaced as the Dune-domain alternative; if the
envelope itself fails to decode, the underlying transport/decode error is
surfaced instead. -/
theorem parse_response_spec (T : Type) (resp : HttpResponse T) :
    (resp.isSuccess = true →
      (∀ t : T, resp.jsonBody = Except.ok t → parseResponse resp = Except.ok t) ∧
      (∀ e : ReqwestError, resp.jsonBody = Except.error e →
        parseResponse resp = Except.error (DuneRequestError.Request e.display) ∧
        (e.kind = ReqErrorKind.decode →
          e.display = "error decoding response body" ++ ": " ++ e.detail))) ∧
    (resp.isSuccess = false →
      (∀ d : DuneError, resp.jsonDuneError = Except.ok d →
        parseResponse resp = Except.error (DuneRequestError.Dune d.error)) ∧
      (∀ e : ReqwestError, resp.jsonDuneError = Except.error e →
        parseResponse resp = Except.error (DuneRequestError.Request e.display))) := by
  constructor
  · intro hs
    constructor
    · intro t ht
      simp [parseResponse, hs, ht, Except.mapError]
    · intro e he
      refine ⟨by simp [parseResponse, hs, he, Except.mapError,
        DuneRequestError.fromReqwest], fun hk => ?_⟩
      simp [ReqwestError.display, hk]
  · intro hs
    constructor
    · intro d hd
      simp [parseResponse, hs, hd, Except.mapError, DuneRequestError.fromDune]
    · intro e he
      simp [parseResponse, hs, he, Except.mapError, DuneRequestError.fromReqwest]

/-- Witness for C4: a successful response whose body decodes, evaluated
concretely; and a failed response with a decodable error envelope. -/
theorem parse_response_spec_witness :
    ((⟨true, Except.ok 7, Except.error ⟨ReqErrorKind.decode, "x"⟩⟩ :
        HttpResponse Nat).isSuccess = true ∧
      parseResponse (⟨true, Except.ok 7, Except.error ⟨ReqErrorKind.decode, "x"⟩⟩ :
        HttpResponse Nat) = Except.ok 7) ∧
    ((⟨false, Except.error ⟨ReqErrorKind.transport, "t"⟩, Except.ok ⟨"invalid API Key"⟩⟩ :
        HttpResponse Nat).isSuccess = false ∧
      parseResponse (⟨false, Except.error ⟨ReqErrorKind.transport, "t"⟩,
          Except.ok ⟨"invalid API Key"⟩⟩ : HttpResponse Nat) =
        Except.error (DuneRequestError.Dune "invalid API Key")) :=
  ⟨⟨rfl, (parse_response_spec Nat _).1 rfl |>.1 7 rfl⟩,
   ⟨rfl, (parse_response_spec Nat _).2 rfl |>.1 ⟨"invalid API Key"⟩ rfl⟩⟩

/-- C7 counterexample: `DuneRequestError` is not exhausted by the three
alternatives {remote-reported, transport, decode}: the value
`DuneRequestError.Polars "x"` (the variant for errors bubbled up from
polars, src/error.rs line 22) is none of them. -/
theorem dune_request_error_not_three :
    ¬ (∀ e : DuneRequestError,
        (∃ s, e = DuneRequestError.Dune s) ∨ (∃ s, e = DuneRequestError.Request s) ∨
        (∃ s, e = DuneRequestError.Serde s)) := by
  intro h
  rcases h (DuneRequestError.Polars "x") with ⟨s, hs⟩ | ⟨s, hs⟩ | ⟨s, hs⟩ <;> cases hs

/-- C7 (amended): `DuneRequestError` is a tagged union with exactly four
alternatives: remote-reported error message (`Dune`), transport error
(`Request`), decode error (`Serde`), and dataframe-conversion error
(`Polars`).  The four alternatives are exhaustive and pairwise disjoint. -/
theorem dune_request_error_four :
    (∀ e : DuneRequestError,
      (∃ s, e = DuneRequestError.Dune s) ∨ (∃ s, e = DuneRequestError.Request s) ∨
      (∃ s, e = DuneRequestError.Serde s) ∨ (∃ s, e = DuneRequestError.Polars s)) ∧
    (∀ s t : String,
      DuneRequestError.Dune s ≠ DuneRequestError.Request t ∧
      DuneRequestError.Dune s ≠ DuneRequestError.Serde t ∧
      DuneRequestError.Dune s ≠ DuneRequestError.Polars t ∧
      DuneRequestError.Request s ≠ DuneRequestError.Serde t ∧
      DuneRequestError.Request s ≠ DuneRequestError.Polars t ∧
      DuneRequestError.Serde s ≠ DuneRequestError.Polars t) := by
  constructor
  · intro e
    cases e with
    | Dune s => exact Or.inl ⟨s, rfl⟩
    | Request s => exact Or.inr (Or.inl ⟨s, rfl⟩)
    | Serde s => exact Or.inr (Or.inr (Or.inl ⟨s, rfl⟩))
    | Polars s => exact Or.inr (Or.inr (Or.inr ⟨s, rfl⟩))
  · intro s t
    refine ⟨?_, ?_, ?_, ?_, ?_, ?_⟩ <;> intro h <;> cases h

/- ---------------------------------------------------------------- -/
/- Parameters: `src/parameters.rs`                                   -/
/- ---------------------------------------------------------------- -/

/-- The four Dune parameter types (`enum ParameterType`,
src/parameters.rs lines 7-16). -/
inductive ParameterType where
  | Text
  | Number
  | Enum
  | Date
deriving DecidableEq, Repr

/-- A named, typed parameter with a string value
(`struct Parameter`, src/parameters.rs lines 19-27). -/
structure Parameter where
  key : String
  ptype : ParameterType
  value : String
deriving DecidableEq, Repr

/-- Constructor of Text type Parameter (`Parameter::text`). -/
def Parameter.text (name : String) (value : String) : Parameter :=
  ⟨name, ParameterType.Text, value⟩

/-- Constructor of Numeric type Parameter (`Parameter::number`). -/
def Parameter.number (name : String) (value : String) : Parameter :=
  ⟨name, ParameterType.Number, value⟩

/-- Constructor of List/Enum type Parameter (`Parameter::list`). -/
def Parameter.list (name : String) (value : String) : Parameter :=
  ⟨name, ParameterType.Enum, value⟩

/- ---------------------------------------------------------------- -/
/- POST body construction: `DuneClient::_post`, src/client.rs 52-67  -/
/- ---------------------------------------------------------------- -/

/-- One `std::collections::HashMap::insert`: if the key is present its
value is replaced, otherwise the pair is appended.  The map is modelled
as an association list (logical content only; hashing affects iteration
order of the map, which the request body does not depend on). -/
def hmInsert (m : List (String × String)) (k v : String) : List (String × String) :=
  if m.any (fun e => e.1 = k) then
    m.map (fun e => if e.1 = k then (k, v) else e)
  else
    m ++ [(k, v)]

/-- The `query_parameters` object built by `DuneClient::_post`
(src/client.rs lines 53-57):
`params.unwrap_or_default().into_iter().map(|p| (p.key, p.value)).collect::<HashMap<_,_>>()`.
`collect` into a `HashMap` inserts the pairs in iterator order, so a later
pair with a duplicate key overwrites the earlier one. -/
def postQueryParameters (params : Option (List Parameter)) : List (String × String) :=
  (params.getD []).foldl (fun m p => hmInsert m p.key p.value) []

/-- Number of entries of the map with the given key. -/
def countKey (m : List (String × String)) (k : String) : Nat :=
  (m.filter (fun e => e.1 = k)).length

/-- Value stored in the map at the given key, when present. -/
def lookupKey (m : List (String × String)) (k : String) : Option String :=
  (m.find? (fun e => e.1 = k)).map (fun e => e.2)

/-- The last parameter of the list with the given key, when one exists. -/
def lastWithKey (l : List Parameter) (k : String) : Option Parameter :=
  l.reverse.find? (fun p => p.key = k)

theorem countKey_hmInsert_self (m : List (String × String)) (k v : String) :
    countKey (hmInsert m k v) k = max (countKey m k) 1 := by
  unfold hmInsert countKey
  by_cases hany : m.any (fun e => e.1 = k)
  · simp only [hany, if_true]
    rw [← List.countP_eq_length_filter, ← List.countP_eq_length_filter, List.countP_map]
    have hfun : ((fun e : String × String => decide (e.1 = k)) ∘
        fun e : String × String => if e.1 = k then (k, v) else e) =
        fun e : String × String => decide (e.1 = k) := by
      funext e
      by_cases he : e.1 = k <;> simp [he, Function.comp]
    rw [hfun]
    have : 0 < m.countP (fun e : String × String => decide (e.1 = k)) := by
      rw [List.countP_pos_iff]
      obtain ⟨e, he, hek⟩ := List.any_eq_true.mp hany
      exact ⟨e, he, hek⟩
    omega
  · simp only [hany, if_false]
    have hzero : (m.filter (fun e : String × String => e.1 = k)).length = 0 := by
      rw [List.length_eq_zero, List.filter_eq_nil_iff]
      intro e he hek
      exact hany (List.any_eq_true.mpr ⟨e, he, hek⟩)
    simp [List.filter_append, hzero]

theorem countKey_hmInsert_ne (m : List (String × String)) (k v k' : String)
    (h : k' ≠ k) : countKey (hmInsert m k v) k' = countKey m k' := by
  unfold hmInsert countKey
  by_cases hany : m.any (fun e => e.1 = k)
  · rw [if_pos hany]
    rw [← List.countP_eq_length_filter, ← List.countP_eq_length_filter, List.countP_map]
    congr 1
    funext e
    by_cases he : e.1 = k
    · have h1 : ¬ ((k, v).1 = k') := fun hk => h (hk.symm)
      have h2 : ¬ (e.1 = k') := fun hk => h (he ▸ hk).symm
      simp [Function.comp, he, h1, h2]
    · simp [he, Function.comp]
  · rw [if_neg hany]
    simp [List.filter_append, Ne.symm h]

theorem find?_mapReplace_self (k v : String) :
    ∀ m : List (String × String), m.any (fun e => e.1 = k) = true →
      (m.map fun e => if e.1 = k then (k, v) else e).find? (fun e => e.1 = k) =
        some (k, v) := by
  intro m
  induction m with
  | nil => intro h; simp at h
  | cons e m ih =>
    intro hany
    by_cases he : e.1 = k
    · rw [List.map_cons, if_pos he, List.find?_cons_of_pos _ (by simp)]
    · have hany' : m.any (fun e => e.1 = k) = true := by
        simpa [he] using hany
      rw [List.map_cons, if_neg he,
        List.find?_cons_of_neg _ (by simpa using he)]
      exact ih hany'

theorem find?_mapReplace_ne (k v k' : String) (h : k' ≠ k) :
    ∀ m : List (String × String),
      (m.map fun e => if e.1 = k then (k, v) else e).find? (fun e => e.1 = k') =
        m.find? (fun e => e.1 = k') := by
  intro m
  induction m with
  | nil => rfl
  | cons e m ih =>
    by_cases he : e.1 = k
    · have h1 : ¬ ((k, v).1 = k') := fun hk => h hk.symm
      have h2 : ¬ (e.1 = k') := fun hk => h (he ▸ hk).symm
      rw [List.map_cons, if_pos he, List.find?_cons_of_neg _ (by simpa using h1),
        List.find?_cons_of_neg _ (by simpa using h2)]
      exact ih
    · rw [List.map_cons, if_neg he]
      by_cases he' : e.1 = k'
      · rw [List.find?_cons_of_pos _ (by simp [he']),
          List.find?_cons_of_pos _ (by simp [he'])]
      · rw [List.find?_cons_of_neg _ (by simpa using he'),
          List.find?_cons_of_neg _ (by simpa using he')]
        exact ih

theorem lookupKey_hmInsert_self (m : List (String × String)) (k v : String) :
    lookupKey (hmInsert m k v) k = some v := by
  unfold hmInsert lookupKey
  by_cases hany : m.any (fun e => e.1 = k)
  · rw [if_pos hany, find?_mapReplace_self k v m hany]
    rfl
  · rw [if_neg hany]
    have hnone : m.find? (fun e => e.1 = k) = none := by
      rw [List.find?_eq_none]
      intro e he hek
      exact hany (List.any_eq_true.mpr ⟨e, he, hek⟩)
    rw [List.find?_append, hnone]
    simp

theorem lookupKey_hmInsert_ne (m : List (String × String)) (k v k' : String)
    (h : k' ≠ k) : lookupKey (hmInsert m k v) k' = lookupKey m k' := by
  unfold hmInsert lookupKey
  by_cases hany : m.any (fun e => e.1 = k)
  · rw [if_pos hany, find?_mapReplace_ne k v k' h m]
  · rw [if_neg hany, List.find?_append]
    have h1 : [(k, v)].find? (fun e => e.1 = k') = none := by
      rw [List.find?_cons_of_neg _ (by simpa using fun hk : k = k' => h hk.symm)]
      rfl
    rw [h1]
    simp

theorem lookupKey_fold (l : List Parameter) :
    ∀ (m : List (String × String)) (k : String),
      lookupKey (l.foldl (fun m p => hmInsert m p.key p.value) m) k =
        ((lastWithKey l k).map Parameter.value).or (lookupKey m k) := by
  induction l with
  | nil =>
    intro m k
    rw [List.foldl_nil]
    rfl
  | cons p l ih =>
    intro m k
    rw [List.foldl_cons, ih]
    have hrev : lastWithKey (p :: l) k =
        (lastWithKey l k).or ([p].find? (fun q => q.key = k)) := by
      unfold lastWithKey
      rw [List.reverse_cons, List.find?_append]
    rcases hl : lastWithKey l k with _ | q
    · rw [hl] at hrev
      rw [hrev]
      by_cases hpk : p.key = k
      · rw [List.find?_cons_of_pos _ (by simp [hpk])]
        subst hpk
        rw [lookupKey_hmInsert_self]
        rfl
      · rw [List.find?_cons_of_neg _ (by simpa using hpk),
          lookupKey_hmInsert_ne m p.key p.value k (fun hk => hpk hk.symm)]
        rfl
    · rw [hl] at hrev
      rw [hrev]
      rfl

theorem countKey_fold_le_one (l : List Parameter) :
    ∀ m : List (String × String), (∀ k, countKey m k ≤ 1) →
      ∀ k, countKey (l.foldl (fun m p => hmInsert m p.key p.value) m) k ≤ 1 := by
  induction l with
  | nil => intro m hm k; exact hm k
  | cons p l ih =>
    intro m hm k
    rw [List.foldl_cons]
    refine ih _ (fun k' => ?_) k
    by_cases hk : k' = p.key
    · subst hk
      rw [countKey_hmInsert_self]
      have := hm p.key
      omega
    · rw [countKey_hmInsert_ne m p.key p.value k' hk]
      exact hm k'

theorem countKey_pos_of_lookup (m : List (String × String)) (k v : String)
    (h : lookupKey m k = some v) : 1 ≤ countKey m k := by
  unfold lookupKey at h
  unfold countKey
  rcases hf : m.find? (fun e => e.1 = k) with _ | e
  · rw [hf] at h
    cases h
  · have hmem := List.mem_of_find?_eq_some hf
    have hpred := List.find?_some hf
    rw [← List.countP_eq_length_filter]
    have hpos : 0 < m.countP (fun e : String × String => decide (e.1 = k)) :=
      List.countP_pos_iff.mpr ⟨e, hmem, hpred⟩
    omega

theorem lastWithKey_some (l : List Parameter) (k : String) (p : Parameter)
    (hp : p ∈ l) (hk : p.key = k) :
    ∃ q, lastWithKey l k = some q ∧ q.key = k ∧ q ∈ l := by
  unfold lastWithKey
  rcases hf : l.reverse.find? (fun q => q.key = k) with _ | q
  · rw [List.find?_eq_none] at hf
    exact absurd (by simp [hk] : decide (p.key = k) = true)
      (by simpa using hf p (List.mem_reverse.mpr hp))
  · exact ⟨q, hf, by simpa using List.find?_some hf,
      List.mem_reverse.mp (List.mem_of_find?_eq_some hf)⟩

/-- C9: when the parameter list handed to `_post` contains two parameters
with the same key, the `query_parameters` object of the request body holds
exactly one entry for that key, whose value is that of one of the
duplicated parameters (the later one, since `collect` into a `HashMap`
lets later inserts overwrite earlier ones); no error is raised (the
construction is total).  When the parameter list is absent, the
`query_parameters` object is empty. -/
theorem post_body_duplicate_keys (l : List Parameter) (k : String)
    (h : 2 ≤ (l.filter (fun p => p.key = k)).length) :
    countKey (postQueryParameters (some l)) k = 1 ∧
    (∃ p ∈ l, p.key = k ∧
      lookupKey (postQueryParameters (some l)) k = some p.value) ∧
    postQueryParameters none = [] := by
  have hmem : ∃ p ∈ l, p.key = k := by
    rcases hfil : l.filter (fun p => p.key = k) with _ | ⟨p, t⟩
    · rw [hfil] at h
      simp at h
    · have hpf : p ∈ l.filter (fun p => p.key = k) := by
        rw [hfil]
        exact List.mem_cons_self p t
      have := List.mem_filter.mp hpf
      exact ⟨p, this.1, by simpa using this.2⟩
  obtain ⟨p, hp, hk⟩ := hmem
  obtain ⟨q, hq, hqk, hqmem⟩ := lastWithKey_some l k p hp hk
  have hlookup : lookupKey (postQueryParameters (some l)) k = some q.value := by
    unfold postQueryParameters
    rw [show (some l).getD [] = l from rfl, lookupKey_fold, hq]
    rfl
  refine ⟨?_, ⟨q, hqmem, hqk, hlookup⟩, rfl⟩
  have hle := countKey_fold_le_one l [] (fun k' => by simp [countKey]) k
  have hge := countKey_pos_of_lookup _ k q.value hlookup
  unfold postQueryParameters at hlookup hge ⊢
  rw [show (some l).getD [] = l from rfl] at hge ⊢
  omega

/-- Witness for C9: the list with duplicated key "a" produces a body with
one single "a" entry holding the later value "2". -/
theorem post_body_duplicate_keys_witness :
    2 ≤ (([Parameter.text "a" "1", Parameter.text "a" "2"]).filter
          (fun p => p.key = "a")).length ∧
    (countKey (postQueryParameters
        (some [Parameter.text "a" "1", Parameter.text "a" "2"])) "a" = 1 ∧
      (∃ p ∈ [Parameter.text "a" "1", Parameter.text "a" "2"], p.key = "a" ∧
        lookupKey (postQueryParameters
          (some [Parameter.text "a" "1", Parameter.text "a" "2"])) "a" = some p.value) ∧
      postQueryParameters none = []) :=
  ⟨by decide, post_body_duplicate_keys [Parameter.text "a" "1", Parameter.text "a" "2"]
    "a" (by decide)⟩

/- ---------------------------------------------------------------- -/
/- Date model: chrono `NaiveDateTime` and its canonical rendering    -/
/- ---------------------------------------------------------------- -/

/-- Fuel-driven accumulator loop producing the decimal digit characters
of a natural number, least significant digit peeled first. -/
def natCharsAux : Nat → Nat → List Char → List Char
  | 0, _, acc => acc
  | fuel + 1, n, acc =>
    if n < 10 then Nat.digitChar n :: acc
    else natCharsAux fuel (n / 10) (Nat.digitChar (n % 10) :: acc)

/-- Decimal digit characters of a natural number, most significant first,
mirroring Rust's decimal `Display` of an unsigned integer. -/
def natChars (n : Nat) : List Char :=
  natCharsAux (n + 1) n []

/-- Zero padding to a minimum width, mirroring Rust's
width-with-zero-fill integer formatting. -/
def padNum (w n : Nat) : List Char :=
  List.replicate (w - (natChars n).length) '0' ++ natChars n

/-- Year rendering of chrono's date `Display`: years 0..=9999 are
zero-padded to four digits; other years carry an explicit sign in front
of the zero-padded absolute value. -/
def yearChars (y : Int) : List Char :=
  if y < 0 then '-' :: padNum 4 y.natAbs
  else if y ≤ 9999 then padNum 4 y.toNat
  else '+' :: padNum 4 y.toNat

/-- Model of `chrono::NaiveDateTime`: a calendar date plus a time of day
with nanosecond precision.  `nano` ranges in `0..2_000_000_000`; values
at or above `1_000_000_000` represent a leap second. -/
structure NaiveDateTime where
  year : Int
  month : Nat
  day : Nat
  hour : Nat
  minute : Nat
  second : Nat
  nano : Nat
deriving DecidableEq, Repr

/-- Field ranges guaranteed by chrono's constructors. -/
def NaiveDateTime.isValid (dt : NaiveDateTime) : Bool :=
  1 ≤ dt.month && dt.month ≤ 12 && 1 ≤ dt.day && dt.day ≤ 31 &&
    dt.hour ≤ 23 && dt.minute ≤ 59 && dt.second ≤ 59 && dt.nano < 2000000000

/-- Seconds figure displayed by chrono's time `Display`: a leap second
(fractional part at or above one billion) displays as `second + 1`. -/
def NaiveDateTime.dispSecond (dt : NaiveDateTime) : Nat :=
  if 1000000000 ≤ dt.nano then dt.second + 1 else dt.second

/-- Nanoseconds displayed by chrono's time `Display` after the leap-second
adjustment. -/
def NaiveDateTime.dispNano (dt : NaiveDateTime) : Nat :=
  if 1000000000 ≤ dt.nano then dt.nano - 1000000000 else dt.nano

/-- Fractional-second suffix of chrono's time `Display`: empty when zero,
otherwise a dot followed by 3, 6 or 9 digits depending on divisibility. -/
def fracChars (nano : Nat) : List Char :=
  if nano = 0 then []
  else if nano % 1000000 = 0 then '.' :: padNum 3 (nano / 1000000)
  else if nano % 1000 = 0 then '.' :: padNum 6 (nano / 1000)
  else '.' :: padNum 9 nano

/-- Characters of chrono's canonical `to_string()` rendering of a
`NaiveDateTime`: date `Display`, a space, then time `Display`. -/
def NaiveDateTime.render (dt : NaiveDateTime) : List Char :=
  yearChars dt.year ++ '-' :: padNum 2 dt.month ++ '-' :: padNum 2 dt.day ++
    ' ' :: padNum 2 dt.hour ++ ':' :: padNum 2 dt.minute ++
    ':' :: padNum 2 dt.dispSecond ++ fracChars dt.dispNano

/-- The canonical `to_string()` rendering itself. -/
def NaiveDateTime.renderString (dt : NaiveDateTime) : String :=
  String.mk dt.render

/-- Rust byte slicing `&s[..n]` on a UTF-8 string, on the character list:
`some` of the first characters totalling `n` bytes, or `none` when the
slice would panic (out of bounds, or `n` not on a character boundary). -/
def byteTake : List Char → Nat → Option (List Char)
  | _, 0 => some []
  | [], _ + 1 => none
  | c :: cs, n + 1 =>
    if c.utf8Size ≤ n + 1 then (byteTake cs (n + 1 - c.utf8Size)).map (c :: ·)
    else none

/-- Constructor of Date type Parameter (`Parameter::date`,
src/parameters.rs lines 31-39): the wire value is
`value.to_string()[..19].parse().unwrap()`.  The byte slice is the only
panic source (modelled by `none`); `str::parse::<String>` is the
`Infallible` identity conversion. -/
def Parameter.date (name : String) (value : NaiveDateTime) : Option Parameter :=
  (byteTake value.render 19).map fun v => ⟨name, ParameterType.Date, String.mk v⟩

/-- The second-precision `YYYY-MM-DD HH:MM:SS` truncation of the
rendering (the year as four zero-padded digits of its absolute value). -/
def NaiveDateTime.wireChars (dt : NaiveDateTime) : List Char :=
  padNum 4 dt.year.natAbs ++ '-' :: padNum 2 dt.month ++ '-' :: padNum 2 dt.day ++
    ' ' :: padNum 2 dt.hour ++ ':' :: padNum 2 dt.minute ++
    ':' :: padNum 2 dt.dispSecond

/-- String form of the second-precision truncation. -/
def NaiveDateTime.wireForm (dt : NaiveDateTime) : String :=
  String.mk dt.wireChars

/- ---------------------------------------------------------------- -/
/- Date parsing: `date_parse`, src/util.rs lines 3-6                 -/
/- ---------------------------------------------------------------- -/

/-- Consume up to `max` leading decimal digits. -/
def takeDigits (max : Nat) : List Char → List Char × List Char
  | [] => ([], [])
  | c :: cs =>
    if c.isDigit ∧ 0 < max then
      let r := takeDigits (max - 1) cs
      (c :: r.1, r.2)
    else ([], c :: cs)

/-- Numeric value of a digit string, most significant first. -/
def digitsToNat (ds : List Char) : Nat :=
  ds.foldl (fun a c => 10 * a + (c.toNat - 48)) 0

/-- Parse between 1 and `max` decimal digits (chrono `scan::number`). -/
def parseNum (max : Nat) (cs : List Char) : Option (Nat × List Char) :=
  let r := takeDigits max cs
  if r.1.isEmpty then none else some (digitsToNat r.1, r.2)

/-- Parse one expected literal character. -/
def parseLit (c : Char) : List Char → Option (List Char)
  | [] => none
  | c' :: cs => if c' = c then some cs else none

/-- Parse an optionally signed year (chrono parses `%Y` as a signed
number of up to four digits; a leading sign admits more digits, which
this model rounds down to the four-digit case used by this crate). -/
def parseYear (cs : List Char) : Option (Int × List Char) :=
  match cs with
  | '+' :: rest => (parseNum 4 rest).map fun r => ((r.1 : Int), r.2)
  | '-' :: rest => (parseNum 4 rest).map fun r => (-(r.1 : Int), r.2)
  | _ => (parseNum 4 cs).map fun r => ((r.1 : Int), r.2)

/-- The `%Y-%m-%d` prefix of the format: year, month, day, rest. -/
def parseDatePart (cs : List Char) : Option (Int × Nat × Nat × List Char) :=
  (parseYear cs).bind fun py =>
  (parseLit '-' py.2).bind fun r2 =>
  (parseNum 2 r2).bind fun pmo =>
  (parseLit '-' pmo.2).bind fun r4 =>
  (parseNum 2 r4).map fun pd => (py.1, pmo.1, pd.1, pd.2)

/-- The `%H:%M:%S` middle of the format: hour, minute, second, rest. -/
def parseTimePart (cs : List Char) : Option (Nat × Nat × Nat × List Char) :=
  (parseNum 2 cs).bind fun ph =>
  (parseLit ':' ph.2).bind fun r8 =>
  (parseNum 2 r8).bind fun pmi =>
  (parseLit ':' pmi.2).bind fun r10 =>
  (parseNum 2 r10).map fun psec => (ph.1, pmi.1, psec.1, psec.2)

/-- The `.%fZ` suffix of the format: nanoseconds and rest. -/
def parseFracPart (cs : List Char) : Option (Nat × List Char) :=
  (parseLit '.' cs).bind fun r12 =>
  (parseNum 9 r12).bind fun pns =>
  (parseLit 'Z' pns.2).map fun r14 => (pns.1, r14)

/-- Model of `date_parse` (src/util.rs lines 3-6):
`NaiveDateTime::parse_from_str(date_str, "%Y-%m-%dT%H:%M:%S.%fZ")`.
The `%f` field parses its digits as a literal nanosecond count (hence
".123" parses as 123 nanoseconds, matching the crate's own test).  The
whole input must be consumed, and the parsed fields must form a valid
timestamp. -/
def date_parse (s : String) : Option NaiveDateTime :=
  (parseDatePart s.data).bind fun d =>
  (parseLit 'T' d.2.2.2).bind fun r6 =>
  (parseTimePart r6).bind fun t =>
  (parseFracPart t.2.2.2).bind fun f =>
  let dt : NaiveDateTime := ⟨d.1, d.2.1, d.2.2.1, t.1, t.2.1, t.2.2.1, f.1⟩
  if f.2 = [] ∧ dt.isValid then some dt else none

/-- Total UTF-8 byte count of a character list (`str::len` in bytes). -/
def utf8Len (cs : List Char) : Nat :=
  (cs.map Char.utf8Size).sum

/- ---------------------------------------------------------------- -/
/- Lemmas about the decimal rendering                                -/
/- ---------------------------------------------------------------- -/

theorem natCharsAux_eq :
    ∀ (fuel n : Nat) (acc : List Char), 0 < n → n < 10 ^ fuel →
      natCharsAux fuel n acc = ((Nat.digits 10 n).map Nat.digitChar).reverse ++ acc := by
  intro fuel
  induction fuel with
  | zero =>
    intro n acc h1 h2
    simp at h2
    omega
  | succ fuel ih =>
    intro n acc h1 h2
    rw [natCharsAux]
    by_cases hn : n < 10
    · rw [if_pos hn, Nat.digits_def' (by norm_num : (1:Nat) < 10) h1,
        Nat.mod_eq_of_lt hn, Nat.div_eq_of_lt hn]
      simp
    · rw [if_neg hn]
      have h10 : 0 < n / 10 := Nat.div_pos (by omega) (by omega)
      have hlt : n / 10 < 10 ^ fuel := by
        rw [Nat.div_lt_iff_lt_mul (by omega)]
        calc n < 10 ^ (fuel + 1) := h2
          _ = 10 ^ fuel * 10 := by ring
      rw [ih (n / 10) _ h10 hlt, Nat.digits_def' (by norm_num : (1:Nat) < 10) h1]
      simp

theorem natChars_eq (n : Nat) (h : 0 < n) :
    natChars n = ((Nat.digits 10 n).map Nat.digitChar).reverse := by
  unfold natChars
  rw [natCharsAux_eq (n + 1) n [] h
    (lt_of_lt_of_le (Nat.lt_pow_self (by norm_num) n)
      (Nat.pow_le_pow_right (by norm_num) (by omega)))]
  simp

theorem natChars_zero : natChars 0 = ['0'] := rfl

theorem natChars_length (n : Nat) (h : 0 < n) :
    (natChars n).length = Nat.log 10 n + 1 := by
  rw [natChars_eq n h]
  simp [Nat.digits_len 10 n (by norm_num) (by omega)]

theorem natChars_length_le (n k : Nat) (hk : 0 < k) (h : n < 10 ^ k) :
    (natChars n).length ≤ k := by
  rcases Nat.eq_zero_or_pos n with h0 | h0
  · subst h0
    simpa [natChars_zero] using hk
  · rw [natChars_length n h0]
    have := Nat.log_lt_of_lt_pow (by omega : n ≠ 0) h
    omega

theorem natChars_length_ge (n k : Nat) (h : 10 ^ k ≤ n) :
    k + 1 ≤ (natChars n).length := by
  have h0 : 0 < n := lt_of_lt_of_le (Nat.pos_pow_of_pos k (by norm_num)) h
  rw [natChars_length n h0]
  have := Nat.le_log_of_pow_le (by norm_num) h
  omega

theorem natChars_digits (n : Nat) :
    ∀ c ∈ natChars n, ∃ d, d < 10 ∧ c = Nat.digitChar d := by
  rcases Nat.eq_zero_or_pos n with h0 | h0
  · subst h0
    intro c hc
    rw [natChars_zero, List.mem_singleton] at hc
    exact ⟨0, by omega, by rw [hc]; rfl⟩
  · rw [natChars_eq n h0]
    intro c hc
    rw [List.mem_reverse, List.mem_map] at hc
    obtain ⟨d, hd, rfl⟩ := hc
    exact ⟨d, Nat.digits_lt_base (by norm_num) hd, rfl⟩

theorem natChars_ne_nil (n : Nat) : natChars n ≠ [] := by
  rcases Nat.eq_zero_or_pos n with h0 | h0
  · subst h0
    rw [natChars_zero]
    simp
  · have := natChars_length n h0
    intro hnil
    rw [hnil] at this
    simp at this

theorem digitChar_facts :
    ∀ d, d < 10 → (Nat.digitChar d).utf8Size = 1 ∧ (Nat.digitChar d).toNat ≤ 127 ∧
      Nat.digitChar d ≠ '-' ∧ Nat.digitChar d ≠ '+' := by decide

theorem padNum_length (w n : Nat) :
    (padNum w n).length = max w (natChars n).length := by
  unfold padNum
  rw [List.length_append, List.length_replicate]
  omega

theorem padNum_digits (w n : Nat) :
    ∀ c ∈ padNum w n, ∃ d, d < 10 ∧ c = Nat.digitChar d := by
  intro c hc
  unfold padNum at hc
  rw [List.mem_append] at hc
  rcases hc with hc | hc
  · rw [List.mem_replicate] at hc
    exact ⟨0, by omega, by rw [hc.2]; rfl⟩
  · exact natChars_digits n c hc

theorem padNum_head (w n : Nat) :
    ∃ d t, d < 10 ∧ padNum w n = Nat.digitChar d :: t := by
  unfold padNum
  rcases hrep : w - (natChars n).length with _ | m
  · rw [List.replicate_zero, List.nil_append]
    rcases hchars : natChars n with _ | ⟨c, t⟩
    · exact absurd hchars (natChars_ne_nil n)
    · obtain ⟨d, hd, hcd⟩ := natChars_digits n c (by rw [hchars]; exact List.mem_cons_self c t)
      exact ⟨d, t, hd, by rw [hcd]⟩
  · rw [List.replicate_succ, List.cons_append]
    exact ⟨0, List.replicate m '0' ++ natChars n, by omega, by rfl⟩

/- ---------------------------------------------------------------- -/
/- ASCII and byte-slicing lemmas                                     -/
/- ---------------------------------------------------------------- -/

/-- Every character of the list is a one-byte (ASCII) character. -/
def AsciiOK (cs : List Char) : Prop :=
  ∀ c ∈ cs, c.utf8Size = 1 ∧ c.toNat ≤ 127

theorem asciiOK_append {a b : List Char} (ha : AsciiOK a) (hb : AsciiOK b) :
    AsciiOK (a ++ b) := by
  intro c hc
  rcases List.mem_append.mp hc with hc | hc
  · exact ha c hc
  · exact hb c hc

theorem asciiOK_cons (c : Char) {cs : List Char}
    (h1 : c.utf8Size = 1 ∧ c.toNat ≤ 127) (h : AsciiOK cs) : AsciiOK (c :: cs) := by
  intro x hx
  rcases List.mem_cons.mp hx with hx | hx
  · rw [hx]; exact h1
  · exact h x hx

theorem padNum_ascii (w n : Nat) : AsciiOK (padNum w n) := by
  intro c hc
  obtain ⟨d, hd, rfl⟩ := padNum_digits w n c hc
  exact ⟨(digitChar_facts d hd).1, (digitChar_facts d hd).2.1⟩

theorem yearChars_ascii (y : Int) : AsciiOK (yearChars y) := by
  unfold yearChars
  by_cases h1 : y < 0
  · rw [if_pos h1]
    exact asciiOK_cons '-' (by decide) (padNum_ascii 4 y.natAbs)
  · rw [if_neg h1]
    by_cases h2 : y ≤ 9999
    · rw [if_pos h2]
      exact padNum_ascii 4 y.toNat
    · rw [if_neg h2]
      exact asciiOK_cons '+' (by decide) (padNum_ascii 4 y.toNat)

theorem fracChars_ascii (nano : Nat) : AsciiOK (fracChars nano) := by
  unfold fracChars
  by_cases h1 : nano = 0
  · rw [if_pos h1]
    intro c hc
    cases hc
  · rw [if_neg h1]
    by_cases h2 : nano % 1000000 = 0
    · rw [if_pos h2]
      exact asciiOK_cons '.' (by decide) (padNum_ascii 3 (nano / 1000000))
    · rw [if_neg h2]
      by_cases h3 : nano % 1000 = 0
      · rw [if_pos h3]
        exact asciiOK_cons '.' (by decide) (padNum_ascii 6 (nano / 1000))
      · rw [if_neg h3]
        exact asciiOK_cons '.' (by decide) (padNum_ascii 9 nano)

theorem render_ascii (dt : NaiveDateTime) : AsciiOK dt.render :=
  asciiOK_append (asciiOK_append (asciiOK_append (asciiOK_append (asciiOK_append
    (asciiOK_append (yearChars_ascii dt.year)
      (asciiOK_cons '-' (by decide) (padNum_ascii 2 dt.month)))
    (asciiOK_cons '-' (by decide) (padNum_ascii 2 dt.day)))
    (asciiOK_cons ' ' (by decide) (padNum_ascii 2 dt.hour)))
    (asciiOK_cons ':' (by decide) (padNum_ascii 2 dt.minute)))
    (asciiOK_cons ':' (by decide) (padNum_ascii 2 dt.dispSecond)))
    (fracChars_ascii dt.dispNano)

theorem utf8Len_eq_length (cs : List Char) (h : ∀ c ∈ cs, c.utf8Size = 1) :
    utf8Len cs = cs.length := by
  induction cs with
  | nil => rfl
  | cons c cs ih =>
    unfold utf8Len at ih ⊢
    rw [List.map_cons, List.sum_cons, ih (fun x hx => h x (List.mem_cons_of_mem c hx)),
      h c (List.mem_cons_self c cs), List.length_cons]
    omega

theorem byteTake_ascii (cs : List Char) :
    ∀ n, (∀ c ∈ cs, c.utf8Size = 1) → n ≤ cs.length →
      byteTake cs n = some (cs.take n) := by
  induction cs with
  | nil =>
    intro n _ hn
    have : n = 0 := by simpa using hn
    subst this
    rfl
  | cons c cs ih =>
    intro n hall hn
    match n with
    | 0 => rfl
    | m + 1 =>
      have h1 : c.utf8Size = 1 := hall c (List.mem_cons_self c cs)
      show (if c.utf8Size ≤ m + 1 then (byteTake cs (m + 1 - c.utf8Size)).map (c :: ·)
        else none) = _
      rw [h1, if_pos (by omega : 1 ≤ m + 1)]
      have hm : m + 1 - 1 = m := by omega
      rw [List.length_cons] at hn
      rw [hm, ih m (fun x hx => hall x (List.mem_cons_of_mem c hx)) (by omega)]
      rfl

/- ---------------------------------------------------------------- -/
/- Length and shape lemmas for the rendering                         -/
/- ---------------------------------------------------------------- -/

theorem padNum_length_ge (w n : Nat) : w ≤ (padNum w n).length := by
  rw [padNum_length]
  omega

theorem yearChars_length_ge (y : Int) : 4 ≤ (yearChars y).length := by
  unfold yearChars
  by_cases h1 : y < 0
  · rw [if_pos h1, List.length_cons]
    have := padNum_length_ge 4 y.natAbs
    omega
  · rw [if_neg h1]
    by_cases h2 : y ≤ 9999
    · rw [if_pos h2]
      exact padNum_length_ge 4 y.toNat
    · rw [if_neg h2, List.length_cons]
      have := padNum_length_ge 4 y.toNat
      omega

theorem render_length_ge (dt : NaiveDateTime) : 19 ≤ dt.render.length := by
  unfold NaiveDateTime.render
  simp only [List.length_append, List.length_cons]
  have := yearChars_length_ge dt.year
  have := padNum_length_ge 2 dt.month
  have := padNum_length_ge 2 dt.day
  have := padNum_length_ge 2 dt.hour
  have := padNum_length_ge 2 dt.minute
  have := padNum_length_ge 2 dt.dispSecond
  omega

theorem padNum_length_eq (w n : Nat) (h : (natChars n).length ≤ w) :
    (padNum w n).length = w := by
  rw [padNum_length]
  omega

theorem natChars_le_two (n : Nat) (h : n < 100) : (natChars n).length ≤ 2 :=
  natChars_length_le n 2 (by omega) (lt_of_lt_of_eq h (by norm_num))

theorem natChars_le_four (n : Nat) (h : n < 10000) : (natChars n).length ≤ 4 :=
  natChars_length_le n 4 (by omega) (lt_of_lt_of_eq h (by norm_num))

/-- Unpacking of the validity flag into arithmetic bounds. -/
theorem isValid_bounds (dt : NaiveDateTime) (hv : dt.isValid = true) :
    1 ≤ dt.month ∧ dt.month ≤ 12 ∧ 1 ≤ dt.day ∧ dt.day ≤ 31 ∧ dt.hour ≤ 23 ∧
      dt.minute ≤ 59 ∧ dt.second ≤ 59 ∧ dt.nano < 2000000000 := by
  unfold NaiveDateTime.isValid at hv
  simp only [Bool.and_eq_true, decide_eq_true_eq] at hv
  omega

theorem dispSecond_lt (dt : NaiveDateTime) (hv : dt.isValid = true) :
    dt.dispSecond < 100 := by
  have h := isValid_bounds dt hv
  unfold NaiveDateTime.dispSecond
  by_cases hn : 1000000000 ≤ dt.nano
  · rw [if_pos hn]; omega
  · rw [if_neg hn]; omega

theorem wireChars_length (dt : NaiveDateTime) (hv : dt.isValid = true)
    (h1 : 0 ≤ dt.year) (h2 : dt.year ≤ 9999) : dt.wireChars.length = 19 := by
  obtain ⟨b1, b2, b3, b4, b5, b6, b7, b8⟩ := isValid_bounds dt hv
  have hna : dt.year.natAbs < 10000 := by omega
  unfold NaiveDateTime.wireChars
  simp only [List.length_append, List.length_cons]
  rw [padNum_length_eq 4 dt.year.natAbs (natChars_le_four _ hna),
    padNum_length_eq 2 dt.month (natChars_le_two _ (by omega)),
    padNum_length_eq 2 dt.day (natChars_le_two _ (by omega)),
    padNum_length_eq 2 dt.hour (natChars_le_two _ (by omega)),
    padNum_length_eq 2 dt.minute (natChars_le_two _ (by omega)),
    padNum_length_eq 2 dt.dispSecond (natChars_le_two _ (dispSecond_lt dt hv))]

theorem render_eq_wire (dt : NaiveDateTime) (h1 : 0 ≤ dt.year) (h2 : dt.year ≤ 9999) :
    dt.render = dt.wireChars ++ fracChars dt.dispNano := by
  unfold NaiveDateTime.render NaiveDateTime.wireChars yearChars
  rw [if_neg (by omega : ¬ dt.year < 0), if_pos h2]
  have hna : dt.year.toNat = dt.year.natAbs := by omega
  rw [hna]

/-- Shared forward direction: for a valid datetime whose year has a plain
four-digit rendering, the constructed date parameter's wire value is the
second-precision truncation. -/
theorem date_eq_wire (nm : String) (dt : NaiveDateTime) (hv : dt.isValid = true)
    (h1 : 0 ≤ dt.year) (h2 : dt.year ≤ 9999) :
    Parameter.date nm dt = some ⟨nm, ParameterType.Date, dt.wireForm⟩ := by
  have hsize1 : ∀ c ∈ dt.render, c.utf8Size = 1 := fun c hc => (render_ascii dt c hc).1
  have htake : byteTake dt.render 19 = some (dt.render.take 19) :=
    byteTake_ascii dt.render 19 hsize1 (render_length_ge dt)
  have hwire : dt.render.take 19 = dt.wireChars := by
    rw [render_eq_wire dt h1 h2, ← wireChars_length dt hv h1 h2]
    exact List.take_left dt.wireChars (fracChars dt.dispNano)
  rw [Parameter.date, htake, hwire]
  rfl

/-- C10: `Parameter::date` never panics.  The canonical rendering is at
least 19 bytes of ASCII (every character is one UTF-8 byte and has code
point at most 127), so slicing the first 19 bytes always succeeds (the
subsequent `parse::<String>` is the `Infallible` identity and is not a
panic source); and the resulting wire value equals the second-precision
`YYYY-MM-DD HH:MM:SS` truncation exactly when the year is renderable in
four digits without a sign, i.e. lies in `0..=9999`. -/
theorem date_never_panics (nm : String) (dt : NaiveDateTime) (hv : dt.isValid = true) :
    19 ≤ utf8Len dt.render ∧ (∀ c ∈ dt.render, c.toNat ≤ 127) ∧
    (∃ p, Parameter.date nm dt = some p) ∧
    (Parameter.date nm dt = some ⟨nm, ParameterType.Date, dt.wireForm⟩ ↔
      0 ≤ dt.year ∧ dt.year ≤ 9999) := by
  have hascii := render_ascii dt
  have hsize1 : ∀ c ∈ dt.render, c.utf8Size = 1 := fun c hc => (hascii c hc).1
  have hlen := render_length_ge dt
  have htake : byteTake dt.render 19 = some (dt.render.take 19) :=
    byteTake_ascii dt.render 19 hsize1 hlen
  refine ⟨by rw [utf8Len_eq_length dt.render hsize1]; exact hlen,
    fun c hc => (hascii c hc).2,
    ⟨⟨nm, ParameterType.Date, String.mk (dt.render.take 19)⟩,
      by rw [Parameter.date, htake]; rfl⟩,
    ⟨?_, fun h12 => date_eq_wire nm dt hv h12.1 h12.2⟩⟩
  intro heq
  have hval : dt.render.take 19 = dt.wireChars := by
    rw [Parameter.date, htake] at heq
    simp only [Option.map_some', Option.some.injEq, Parameter.mk.injEq, true_and,
      NaiveDateTime.wireForm] at heq
    exact congrArg String.data heq
  by_contra hrange
  have hcases : dt.year < 0 ∨ 9999 < dt.year := by omega
  rcases hcases with hy | hy
  · obtain ⟨d, t', hd, hpad⟩ := padNum_head 4 dt.year.natAbs
    have hrender : ∃ r, dt.render = '-' :: r := by
      unfold NaiveDateTime.render yearChars
      rw [if_pos hy]
      simp only [List.cons_append, List.append_assoc]
      exact ⟨_, rfl⟩
    obtain ⟨r, hr⟩ := hrender
    have h19 : dt.render.take 19 = '-' :: r.take 18 := by
      rw [hr, show (19 : Nat) = 18 + 1 from rfl, List.take_succ_cons]
    rw [h19] at hval
    unfold NaiveDateTime.wireChars at hval
    rw [hpad] at hval
    simp only [List.cons_append, List.append_assoc] at hval
    have hhead : '-' = Nat.digitChar d := by
      injection hval
    exact absurd hhead.symm (digitChar_facts d hd).2.2.1
  · have hlen19 : (dt.render.take 19).length = 19 := by
      rw [List.length_take]
      omega
    have hwlen : 20 ≤ dt.wireChars.length := by
      unfold NaiveDateTime.wireChars
      simp only [List.length_append, List.length_cons]
      have h5 : 5 ≤ (padNum 4 dt.year.natAbs).length := by
        rw [padNum_length]
        have h4 : (10 : Nat) ^ 4 ≤ dt.year.natAbs := by
          calc (10 : Nat) ^ 4 = 10000 := by norm_num
            _ ≤ dt.year.natAbs := by omega
        have := natChars_length_ge dt.year.natAbs 4 h4
        omega
      have := padNum_length_ge 2 dt.month
      have := padNum_length_ge 2 dt.day
      have := padNum_length_ge 2 dt.hour
      have := padNum_length_ge 2 dt.minute
      have := padNum_length_ge 2 dt.dispSecond
      omega
    rw [hval] at hlen19
    omega

/-- Witness for C10: the datetime 2022-05-04 00:00:00.0 is valid and its
rendering is at least 19 bytes. -/
theorem date_never_panics_witness :
    (⟨2022, 5, 4, 0, 0, 0, 0⟩ : NaiveDateTime).isValid = true ∧
    19 ≤ utf8Len (⟨2022, 5, 4, 0, 0, 0, 0⟩ : NaiveDateTime).render :=
  ⟨by decide, (date_never_panics "DateField" ⟨2022, 5, 4, 0, 0, 0, 0⟩ (by decide)).1⟩

/-- C6: constructing a date parameter truncates its datetime value to
second precision in the wire form `YYYY-MM-DD HH:MM:SS`; in particular
the datetime parsed from "2022-05-04T00:00:00.0Z" yields the wire value
"2022-05-04 00:00:00". -/
theorem date_param_truncation :
    (∀ (nm : String) (dt : NaiveDateTime), dt.isValid = true → 0 ≤ dt.year →
      dt.year ≤ 9999 →
      Parameter.date nm dt = some ⟨nm, ParameterType.Date, dt.wireForm⟩) ∧
    (date_parse "2022-05-04T00:00:00.0Z").bind (Parameter.date "DateField") =
      some ⟨"DateField", ParameterType.Date, "2022-05-04 00:00:00"⟩ := by
  refine ⟨fun nm dt hv h1 h2 => date_eq_wire nm dt hv h1 h2, ?_⟩
  decide

/-- Witness for C6: the general truncation statement applied to the
concrete datetime 2022-05-04 00:00:00.0. -/
theorem date_param_truncation_witness :
    ((⟨2022, 5, 4, 0, 0, 0, 0⟩ : NaiveDateTime).isValid = true ∧
      0 ≤ (⟨2022, 5, 4, 0, 0, 0, 0⟩ : NaiveDateTime).year ∧
      (⟨2022, 5, 4, 0, 0, 0, 0⟩ : NaiveDateTime).year ≤ 9999) ∧
    Parameter.date "DateField" (⟨2022, 5, 4, 0, 0, 0, 0⟩ : NaiveDateTime) =
      some ⟨"DateField", ParameterType.Date,
        (⟨2022, 5, 4, 0, 0, 0, 0⟩ : NaiveDateTime).wireForm⟩ :=
  ⟨⟨by decide, by decide, by decide⟩,
    date_param_truncation.1 "DateField" ⟨2022, 5, 4, 0, 0, 0, 0⟩
      (by decide) (by decide) (by decide)⟩

/- ---------------------------------------------------------------- -/
/- Response structures: `src/response.rs`                            -/
/- ---------------------------------------------------------------- -/

/-- Returned from a successful call to `execute_query`
(`struct ExecutionResponse`, src/response.rs lines 8-12). -/
structure ExecutionResponse where
  execution_id : String
  state : ExecutionStatus
deriving DecidableEq, Repr

/-- Returned from a call to `cancel_execution`
(`struct CancellationResponse`, src/response.rs lines 57-61). -/
structure CancellationResponse where
  success : Bool
deriving DecidableEq, Repr

/-- Result metadata (`struct ResultMetaData`, src/response.rs lines 66-74). -/
structure ResultMetaData where
  column_names : List String
  result_set_bytes : Nat
  total_row_count : Nat
  datapoint_count : Nat
  pending_time_millis : Option Nat
  execution_time_millis : Nat
deriving DecidableEq, Repr

/-- Execution timestamps (`struct ExecutionTimes`, src/response.rs
lines 79-98); the `DateTime<Utc>` values are UTC instants modelled by
their naive timestamp. -/
structure ExecutionTimes where
  submitted_at : NaiveDateTime
  expires_at : Option NaiveDateTime
  execution_started_at : Option NaiveDateTime
  execution_ended_at : Option NaiveDateTime
  cancelled_at : Option NaiveDateTime
deriving DecidableEq, Repr

/-- Returned by a successful call to `get_status`
(`struct GetStatusResponse`, src/response.rs lines 102-114). -/
structure GetStatusResponse where
  execution_id : String
  query_id : Nat
  state : ExecutionStatus
  times : ExecutionTimes
  queue_position : Option Nat
  result_metadata : Option ResultMetaData
deriving DecidableEq, Repr

/-- Result rows plus metadata (`struct ExecutionResult<T>`,
src/response.rs lines 119-123). -/
structure ExecutionResult (T : Type) where
  rows : List T
  metadata : ResultMetaData
deriving DecidableEq, Repr

/-- Returned by a successful call to `get_results`
(`struct GetResultResponse<T>`, src/response.rs lines 128-139). -/
structure GetResultResponse (T : Type) where
  execution_id : String
  query_id : Nat
  state : ExecutionStatus
  times : ExecutionTimes
  result : ExecutionResult T
deriving DecidableEq, Repr

/-- Convenience accessor for the nested rows
(`GetResultResponse::get_rows`, src/response.rs lines 141-146). -/
def GetResultResponse.get_rows {T : Type} (r : GetResultResponse T) : List T :=
  r.result.rows

/- ---------------------------------------------------------------- -/
/- The polling orchestrator: `DuneClient::refresh`, client.rs 188-213 -/
/- ---------------------------------------------------------------- -/

/-- Environment of one `refresh` invocation: the outcome of the single
`execute_query` call, the outcome of the `n`-th `get_status` call
(counting from 0), and the outcome of the single `get_results` call.
Each HTTP call is awaited to completion before the next is issued, so an
invocation is determined by this sequence of outcomes. -/
structure DuneOracle (T : Type) where
  executeResult : Except DuneRequestError ExecutionResponse
  statusResult : Nat → Except DuneRequestError GetStatusResponse
  resultsResult : Except DuneRequestError (GetResultResponse T)

/-- Observable steps taken by `refresh`, in order: the submit request,
a `get_status` request, a `sleep(Duration::from_secs(secs))`, and the
final `get_results` request. -/
inductive RefreshEvent where
  | submit
  | statusCheck
  | sleep (secs : Nat)
  | resultsFetch
deriving DecidableEq, Repr

/-- The `while !status.state.is_terminal()` loop of `refresh`
(src/client.rs lines 197-204) followed by the single `get_results` call
(line 205): while the current status is non-terminal, sleep
`ping_frequency.unwrap_or(5)` seconds and re-fetch the status,
propagating a status error immediately (`?`); once a terminal status is
observed, perform one results fetch and return its outcome unchanged
(the `if status.state == ExecutionStatus::Failed` branch only logs a
warning).  `fuel` bounds the number of loop iterations; a `none` result
means the loop was still polling after `fuel` iterations (the code has
no timeout and would continue).  `i` is the index of the next status
call. -/
def refreshLoop {T : Type} (o : DuneOracle T) (ping : Option Nat) :
    Nat → Nat → GetStatusResponse →
      List RefreshEvent × Option (Except DuneRequestError (GetResultResponse T))
  | 0, _, status =>
    if status.state.is_terminal then
      ([RefreshEvent.resultsFetch], some o.resultsResult)
    else ([], none)
  | fuel + 1, i, status =>
    if status.state.is_terminal then
      ([RefreshEvent.resultsFetch], some o.resultsResult)
    else
      match o.statusResult i with
      | Except.error e =>
        ([RefreshEvent.sleep (ping.getD 5), RefreshEvent.statusCheck],
          some (Except.error e))
      | Except.ok st =>
        (RefreshEvent.sleep (ping.getD 5) :: RefreshEvent.statusCheck ::
            (refreshLoop o ping fuel (i + 1) st).1,
          (refreshLoop o ping fuel (i + 1) st).2)

/-- Model of `DuneClient::refresh` (src/client.rs lines 188-213):
submit via `execute_query` (`?` propagates its error), then one
unconditional `get_status` (`?` propagates its error), then the polling
loop.  The returned event list records every request and sleep in
order; the second component is the value `refresh` returns. -/
def refresh {T : Type} (o : DuneOracle T) (ping : Option Nat) (fuel : Nat) :
    List RefreshEvent × Option (Except DuneRequestError (GetResultResponse T)) :=
  match o.executeResult with
  | Except.error e => ([RefreshEvent.submit], some (Except.error e))
  | Except.ok _ =>
    match o.statusResult 0 with
    | Except.error e =>
      ([RefreshEvent.submit, RefreshEvent.statusCheck], some (Except.error e))
    | Except.ok st =>
      (RefreshEvent.submit :: RefreshEvent.statusCheck ::
          (refreshLoop o ping fuel 1 st).1,
        (refreshLoop o ping fuel 1 st).2)

/- ---------------------------------------------------------------- -/
/- Trace lemmas for the polling loop                                 -/
/- ---------------------------------------------------------------- -/

/-- Shape of the loop when the `m`-th in-loop status check (indices
`i .. i+m-1`) is the first terminal one: `m` sleep-then-check blocks
followed by the single results fetch, returning the fetch's outcome. -/
theorem refreshLoop_shape {T : Type} (o : DuneOracle T) (ping : Option Nat) :
    ∀ (m fuel i : Nat) (st : GetStatusResponse), m ≤ fuel →
      (m = 0 → st.state.is_terminal = true) →
      (m ≠ 0 → st.state.is_terminal = false) →
      (∀ t s, t + 1 < m → o.statusResult (i + t) = Except.ok s →
        s.state.is_terminal = false) →
      (∀ t, t < m → ∃ s, o.statusResult (i + t) = Except.ok s) →
      (∀ s, m ≠ 0 → o.statusResult (i + m - 1) = Except.ok s →
        s.state.is_terminal = true) →
      refreshLoop o ping fuel i st =
        ((List.replicate m [RefreshEvent.sleep (ping.getD 5),
            RefreshEvent.statusCheck]).flatten ++ [RefreshEvent.resultsFetch],
          some o.resultsResult) := by
  intro m
  induction m with
  | zero =>
    intro fuel i st _ h0 _ _ _ _
    cases fuel with
    | zero =>
      simp only [refreshLoop]
      rw [if_pos (h0 rfl)]
      simp
    | succ f =>
      simp only [refreshLoop]
      rw [if_pos (h0 rfl)]
      simp
  | succ m ih =>
    intro fuel i st hf h0 h1 h2 h3 h4
    cases fuel with
    | zero => omega
    | succ f =>
      simp only [refreshLoop]
      rw [if_neg (by simp [h1 (Nat.succ_ne_zero m)])]
      obtain ⟨s, hs⟩ := h3 0 (by omega)
      rw [Nat.add_zero] at hs
      rw [hs]
      dsimp only
      have hrec : refreshLoop o ping f (i + 1) s =
          ((List.replicate m [RefreshEvent.sleep (ping.getD 5),
              RefreshEvent.statusCheck]).flatten ++ [RefreshEvent.resultsFetch],
            some o.resultsResult) := by
        refine ih f (i + 1) s (by omega) ?_ ?_ ?_ ?_ ?_
        · intro hm
          refine h4 s (Nat.succ_ne_zero m) ?_
          have he : i + (m + 1) - 1 = i := by omega
          rw [he]
          exact hs
        · intro hm
          exact h2 0 s (by omega) hs
        · intro t s' ht hs'
          refine h2 (t + 1) s' (by omega) ?_
          have he : i + (t + 1) = i + 1 + t := by omega
          rw [he]
          exact hs'
        · intro t ht
          have he : i + 1 + t = i + (t + 1) := by omega
          rw [he]
          exact h3 (t + 1) (by omega)
        · intro s' hm hs'
          refine h4 s' (Nat.succ_ne_zero m) ?_
          have he : i + (m + 1) - 1 = i + 1 + m - 1 := by omega
          rw [he]
          exact hs'
      rw [hrec]
      simp [List.replicate_succ]

/-- Shape of the loop when the status checks `i .. i+m-1` are all
non-terminal and check `i+m` fails: `m+1` sleep-then-check blocks, no
results fetch, and the status error is returned. -/
theorem refreshLoop_error {T : Type} (o : DuneOracle T) (ping : Option Nat)
    (e : DuneRequestError) :
    ∀ (m fuel i : Nat) (st : GetStatusResponse), m + 1 ≤ fuel →
      st.state.is_terminal = false →
      (∀ t, t < m → ∃ s, o.statusResult (i + t) = Except.ok s ∧
        s.state.is_terminal = false) →
      o.statusResult (i + m) = Except.error e →
      refreshLoop o ping fuel i st =
        ((List.replicate (m + 1) [RefreshEvent.sleep (ping.getD 5),
            RefreshEvent.statusCheck]).flatten, some (Except.error e)) := by
  intro m
  induction m with
  | zero =>
    intro fuel i st hf hst _ herr
    cases fuel with
    | zero => omega
    | succ f =>
      simp only [refreshLoop]
      rw [if_neg (by simp [hst])]
      rw [Nat.add_zero] at herr
      rw [herr]
      simp
  | succ m ih =>
    intro fuel i st hf hst hmid herr
    cases fuel with
    | zero => omega
    | succ f =>
      simp only [refreshLoop]
      rw [if_neg (by simp [hst])]
      obtain ⟨s, hs, hsn⟩ := hmid 0 (by omega)
      rw [Nat.add_zero] at hs
      rw [hs]
      dsimp only
      have hrec : refreshLoop o ping f (i + 1) s =
          ((List.replicate (m + 1) [RefreshEvent.sleep (ping.getD 5),
              RefreshEvent.statusCheck]).flatten, some (Except.error e)) := by
        refine ih f (i + 1) s (by omega) hsn ?_ ?_
        · intro t ht
          have he : i + 1 + t = i + (t + 1) := by omega
          rw [he]
          exact hmid (t + 1) (by omega)
        · have he : i + 1 + m = i + (m + 1) := by omega
          rw [he]
          exact herr
      rw [hrec]
      simp [List.replicate_succ]

/-- Shape of a whole `refresh` run reaching its first terminal status at
check `n` (check 0 is the unconditional one right after submission). -/
theorem refresh_shape {T : Type} (o : DuneOracle T) (ping : Option Nat)
    (fuel n : Nat)
    (hexec : ∃ r, o.executeResult = Except.ok r)
    (hok : ∀ j, j ≤ n → ∃ s, o.statusResult j = Except.ok s)
    (hnon : ∀ j s, j < n → o.statusResult j = Except.ok s →
      s.state.is_terminal = false)
    (hterm : ∀ s, o.statusResult n = Except.ok s → s.state.is_terminal = true)
    (hfuel : n ≤ fuel) :
    refresh o ping fuel =
      (RefreshEvent.submit :: RefreshEvent.statusCheck ::
        ((List.replicate n [RefreshEvent.sleep (ping.getD 5),
            RefreshEvent.statusCheck]).flatten ++ [RefreshEvent.resultsFetch]),
        some o.resultsResult) := by
  obtain ⟨r, hr⟩ := hexec
  obtain ⟨s0, hs0⟩ := hok 0 (by omega)
  unfold refresh
  rw [hr, hs0]
  dsimp only
  have hloop : refreshLoop o ping fuel 1 s0 =
      ((List.replicate n [RefreshEvent.sleep (ping.getD 5),
          RefreshEvent.statusCheck]).flatten ++ [RefreshEvent.resultsFetch],
        some o.resultsResult) := by
    refine refreshLoop_shape o ping n fuel 1 s0 hfuel ?_ ?_ ?_ ?_ ?_
    · intro hn
      subst hn
      exact hterm s0 hs0
    · intro hn
      exact hnon 0 s0 (by omega) hs0
    · intro t s ht hs
      refine hnon (1 + t) s (by omega) hs
    · intro t ht
      exact hok (1 + t) (by omega)
    · intro s hn hs
      have he : 1 + n - 1 = n := by omega
      rw [he] at hs
      exact hterm s hs
  rw [hloop]

/-- Every sleep emitted by the loop lasts `ping_frequency.unwrap_or(5)`
seconds. -/
theorem refreshLoop_sleep {T : Type} (o : DuneOracle T) (ping : Option Nat) :
    ∀ (fuel i : Nat) (st : GetStatusResponse) (s : Nat),
      RefreshEvent.sleep s ∈ (refreshLoop o ping fuel i st).1 → s = ping.getD 5 := by
  intro fuel
  induction fuel with
  | zero =>
    intro i st s h
    simp only [refreshLoop] at h
    by_cases ht : st.state.is_terminal = true
    · rw [if_pos ht] at h
      simp at h
    · rw [if_neg ht] at h
      simp at h
  | succ f ih =>
    intro i st s h
    simp only [refreshLoop] at h
    by_cases ht : st.state.is_terminal = true
    · rw [if_pos ht] at h
      simp at h
    · rw [if_neg ht] at h
      rcases hst : o.statusResult i with e | st'
      · rw [hst] at h
        simp only [List.mem_cons, List.not_mem_nil, or_false] at h
        rcases h with h | h
        · injection h
        · cases h
      · rw [hst] at h
        simp only [List.mem_cons] at h
        rcases h with h | h | h
        · injection h
        · cases h
        · exact ih (i + 1) st' s h

/- ---------------------------------------------------------------- -/
/- Concrete oracles for witnesses and counterexamples                -/
/- ---------------------------------------------------------------- -/

/-- Fixed timestamps used by the concrete oracles. -/
def times0 : ExecutionTimes :=
  ⟨⟨2022, 5, 4, 0, 0, 0, 0⟩, none, none, none, none⟩

/-- A status response in the given state. -/
def mkStatusResp (st : ExecutionStatus) : GetStatusResponse :=
  ⟨"01GMZ8R4NPPQZCWYJRY2K03MH0", 971694, st, times0, none, none⟩

/-- Concrete result metadata. -/
def metaData0 : ResultMetaData :=
  ⟨["max_price"], 0, 1, 1, none, 0⟩

/-- A concrete successful results response. -/
def resultResp0 : GetResultResponse Nat :=
  ⟨"01GMZ8R4NPPQZCWYJRY2K03MH0", 971694, ExecutionStatus.Complete, times0,
    ⟨[7], metaData0⟩⟩

/-- Oracle whose very first status check is already terminal. -/
def oracleComplete : DuneOracle Nat :=
  ⟨Except.ok ⟨"01GMZ8R4NPPQZCWYJRY2K03MH0", ExecutionStatus.Executing⟩,
    fun _ => Except.ok (mkStatusResp ExecutionStatus.Complete),
    Except.ok resultResp0⟩

/-- Oracle whose first status check is Pending and whose second is
Complete. -/
def oraclePending : DuneOracle Nat :=
  ⟨Except.ok ⟨"01GMZ8R4NPPQZCWYJRY2K03MH0", ExecutionStatus.Executing⟩,
    fun j => if j = 0 then Except.ok (mkStatusResp ExecutionStatus.Pending)
      else Except.ok (mkStatusResp ExecutionStatus.Complete),
    Except.ok resultResp0⟩

/-- Oracle whose submission fails. -/
def oracleExecFail : DuneOracle Nat :=
  ⟨Except.error (DuneRequestError.Dune "invalid API Key"),
    fun _ => Except.ok (mkStatusResp ExecutionStatus.Complete),
    Except.ok resultResp0⟩

/-- Boolean test for the sleep event. -/
def RefreshEvent.isSleep : RefreshEvent → Bool
  | RefreshEvent.sleep _ => true
  | _ => false

/- ---------------------------------------------------------------- -/
/- Theorems for C1, C5 and C8                                        -/
/- ---------------------------------------------------------------- -/

/-- C1 counterexample: the claim places a sleep immediately after
submission, before the result of the first status check is known.  In the
code the first status check precedes any sleep: when that check is
already terminal the whole run contains no sleep at all, and when it is
non-terminal the first sleep comes only after its result is known. -/
theorem refresh_sleep_order_counterexample :
    (refresh oracleComplete none 10).1 =
      [RefreshEvent.submit, RefreshEvent.statusCheck, RefreshEvent.resultsFetch] ∧
    (refresh oracleComplete none 10).1.filter RefreshEvent.isSleep = [] ∧
    (refresh oraclePending none 10).1 =
      [RefreshEvent.submit, RefreshEvent.statusCheck, RefreshEvent.sleep 5,
        RefreshEvent.statusCheck, RefreshEvent.resultsFetch] := by
  refine ⟨rfl, rfl, rfl⟩

/-- C1 (amended): after submission succeeds, the status is checked once
immediately and unconditionally, with no sleep between submission and
this first check; the loop then continues only while the status is
non-terminal, and the poll-interval sleep occurs at the start of every
loop iteration, after the previous status check's result is known and
before the next status check. -/
theorem refresh_first_check_unconditional {T : Type} (o : DuneOracle T)
    (ping : Option Nat) (fuel n : Nat)
    (hexec : ∃ r, o.executeResult = Except.ok r)
    (hok : ∀ j, j ≤ n → ∃ s, o.statusResult j = Except.ok s)
    (hnon : ∀ j s, j < n → o.statusResult j = Except.ok s →
      s.state.is_terminal = false)
    (hterm : ∀ s, o.statusResult n = Except.ok s → s.state.is_terminal = true)
    (hfuel : n ≤ fuel) :
    (refresh o ping fuel).1 =
      RefreshEvent.submit :: RefreshEvent.statusCheck ::
        ((List.replicate n [RefreshEvent.sleep (ping.getD 5),
            RefreshEvent.statusCheck]).flatten ++ [RefreshEvent.resultsFetch]) ∧
    (refresh o ping fuel).2 = some o.resultsResult := by
  rw [refresh_shape o ping fuel n hexec hok hnon hterm hfuel]
  exact ⟨rfl, rfl⟩

/-- Witness for C1 (amended): a run whose second status check is the
first terminal one does one sleep-and-check block between the two
checks. -/
theorem refresh_first_check_unconditional_witness :
    ((∃ r, oraclePending.executeResult = Except.ok r) ∧
      (∀ j, j ≤ 1 → ∃ s, oraclePending.statusResult j = Except.ok s) ∧
      (∀ j s, j < 1 → oraclePending.statusResult j = Except.ok s →
        s.state.is_terminal = false) ∧
      (∀ s, oraclePending.statusResult 1 = Except.ok s →
        s.state.is_terminal = true) ∧ 1 ≤ 10) ∧
    (refresh oraclePending none 10).1 =
      RefreshEvent.submit :: RefreshEvent.statusCheck ::
        ((List.replicate 1 [RefreshEvent.sleep ((none : Option Nat).getD 5),
            RefreshEvent.statusCheck]).flatten ++ [RefreshEvent.resultsFetch]) ∧
    (refresh oraclePending none 10).2 = some oraclePending.resultsResult := by
  have hexec : ∃ r, oraclePending.executeResult = Except.ok r := ⟨_, rfl⟩
  have hok : ∀ j, j ≤ 1 → ∃ s, oraclePending.statusResult j = Except.ok s := by
    intro j _
    show ∃ s, (if j = 0 then _ else _) = Except.ok s
    by_cases h : j = 0
    · rw [if_pos h]
      exact ⟨_, rfl⟩
    · rw [if_neg h]
      exact ⟨_, rfl⟩
  have hnon : ∀ j s, j < 1 → oraclePending.statusResult j = Except.ok s →
      s.state.is_terminal = false := by
    intro j s hj hs
    interval_cases j
    rw [show oraclePending.statusResult 0 =
      Except.ok (mkStatusResp ExecutionStatus.Pending) from rfl] at hs
    cases hs
    rfl
  have hterm : ∀ s, oraclePending.statusResult 1 = Except.ok s →
      s.state.is_terminal = true := by
    intro s hs
    rw [show oraclePending.statusResult 1 =
      Except.ok (mkStatusResp ExecutionStatus.Complete) from rfl] at hs
    cases hs
    rfl
  exact ⟨⟨hexec, hok, hnon, hterm, by omega⟩,
    refresh_first_check_unconditional oraclePending none 10 1 hexec hok hnon hterm
      (by omega)⟩

/-- C5: `refresh` propagates the first error of any step to its caller
and aborts the loop with no retry: a submit error ends the run with only
the submit event; a first-status error ends it right after that check; a
later status error ends it with no results fetch.  When a terminal state
is reached, whichever of Complete, Cancelled or Failed it is, exactly
one results fetch is performed and its outcome (be it `ok` or `error`)
is returned unchanged, so a Failed state is not itself turned into an
error. -/
theorem refresh_error_propagation (T : Type) (o : DuneOracle T)
    (ping : Option Nat) (fuel : Nat) :
    (∀ e, o.executeResult = Except.error e →
      refresh o ping fuel = ([RefreshEvent.submit], some (Except.error e))) ∧
    (∀ r e, o.executeResult = Except.ok r → o.statusResult 0 = Except.error e →
      refresh o ping fuel =
        ([RefreshEvent.submit, RefreshEvent.statusCheck], some (Except.error e))) ∧
    (∀ n e, (∃ r, o.executeResult = Except.ok r) →
      (∀ j, j ≤ n → ∃ s, o.statusResult j = Except.ok s ∧
        s.state.is_terminal = false) →
      o.statusResult (n + 1) = Except.error e → n + 1 ≤ fuel →
      ((refresh o ping fuel).2 = some (Except.error e) ∧
        RefreshEvent.resultsFetch ∉ (refresh o ping fuel).1)) ∧
    (∀ n, (∃ r, o.executeResult = Except.ok r) →
      (∀ j, j ≤ n → ∃ s, o.statusResult j = Except.ok s) →
      (∀ j s, j < n → o.statusResult j = Except.ok s →
        s.state.is_terminal = false) →
      (∀ s, o.statusResult n = Except.ok s → s.state.is_terminal = true) →
      n ≤ fuel →
      ((refresh o ping fuel).1.count RefreshEvent.resultsFetch = 1 ∧
        (refresh o ping fuel).2 = some o.resultsResult)) := by
  refine ⟨?_, ?_, ?_, ?_⟩
  · intro e he
    unfold refresh
    rw [he]
  · intro r e hr hs
    unfold refresh
    rw [hr, hs]
  · intro n e hexec hmid herr hfuel
    obtain ⟨r, hr⟩ := hexec
    obtain ⟨s0, hs0, hs0n⟩ := hmid 0 (by omega)
    have hloop : refreshLoop o ping fuel 1 s0 =
        ((List.replicate (n + 1) [RefreshEvent.sleep (ping.getD 5),
            RefreshEvent.statusCheck]).flatten, some (Except.error e)) := by
      refine refreshLoop_error o ping e n fuel 1 s0 hfuel hs0n ?_ ?_
      · intro t ht
        obtain ⟨s, hs, hsn⟩ := hmid (t + 1) (by omega)
        refine ⟨s, ?_, hsn⟩
        have he1 : 1 + t = t + 1 := by omega
        rw [he1]
        exact hs
      · have he1 : 1 + n = n + 1 := by omega
        rw [he1]
        exact herr
    unfold refresh
    rw [hr, hs0]
    dsimp only
    rw [hloop]
    refine ⟨rfl, ?_⟩
    intro hmem
    simp only [List.mem_cons] at hmem
    rcases hmem with h | h | h
    · cases h
    · cases h
    · rw [List.mem_flatten] at h
      obtain ⟨l, hl, hm⟩ := h
      rw [List.eq_of_mem_replicate hl] at hm
      simp at hm
  · intro n hexec hok hnon hterm hfuel
    rw [refresh_shape o ping fuel n hexec hok hnon hterm hfuel]
    refine ⟨?_, rfl⟩
    simp only [List.count_cons, List.count_append]
    have hzero : ((List.replicate n [RefreshEvent.sleep (ping.getD 5),
        RefreshEvent.statusCheck]).flatten).count RefreshEvent.resultsFetch = 0 := by
      rw [List.count_eq_zero]
      intro hmem
      rw [List.mem_flatten] at hmem
      obtain ⟨l, hl, hm⟩ := hmem
      rw [List.eq_of_mem_replicate hl] at hm
      simp at hm
    rw [hzero]
    rfl

/-- Witness for C5: a failing submission is returned as-is with nothing
else attempted; a run whose first status is terminal performs exactly
one results fetch. -/
theorem refresh_error_propagation_witness :
    (oracleExecFail.executeResult =
      Except.error (DuneRequestError.Dune "invalid API Key") ∧
      refresh oracleExecFail none 3 = ([RefreshEvent.submit],
        some (Except.error (DuneRequestError.Dune "invalid API Key")))) ∧
    ((refresh oracleComplete none 3).1.count RefreshEvent.resultsFetch = 1 ∧
      (refresh oracleComplete none 3).2 = some oracleComplete.resultsResult) :=
  ⟨⟨rfl, (refresh_error_propagation Nat oracleExecFail none 3).1
      (DuneRequestError.Dune "invalid API Key") rfl⟩,
    (refresh_error_propagation Nat oracleComplete none 3).2.2.2 0
      ⟨_, rfl⟩ (fun j _ => ⟨mkStatusResp ExecutionStatus.Complete, rfl⟩)
      (fun j s hj _ => absurd hj (Nat.not_lt_zero j))
      (fun s hs => by cases hs; rfl) (by omega)⟩

/-- C8: every sleep performed by `refresh` lasts
`ping_frequency.unwrap_or(5)` seconds: 5 seconds when no poll interval
is supplied, and the supplied number of seconds otherwise. -/
theorem refresh_sleep_duration (T : Type) (o : DuneOracle T) (ping : Option Nat)
    (fuel s : Nat) (h : RefreshEvent.sleep s ∈ (refresh o ping fuel).1) :
    s = ping.getD 5 := by
  unfold refresh at h
  rcases hr : o.executeResult with e | r <;> rw [hr] at h
  · simp at h
  · rcases hs : o.statusResult 0 with e | st <;> rw [hs] at h
    · simp at h
    · dsimp only at h
      simp only [List.mem_cons] at h
      rcases h with h | h | h
      · injection h
      · injection h
      · exact refreshLoop_sleep o ping fuel 1 st s h

/-- Witness for C8: a run with a supplied 7-second interval sleeps 7
seconds; the conclusion instantiates `unwrap_or`. -/
theorem refresh_sleep_duration_witness :
    (RefreshEvent.sleep 7 ∈ (refresh oraclePending (some 7) 5).1) ∧
    7 = (some 7 : Option Nat).getD 5 :=
  ⟨by decide, refresh_sleep_duration Nat oraclePending (some 7) 5 7 (by decide)⟩
